import Mathlib

/-!
# Verification of the batch AI code-review pipeline

Shallow embedding of the Python script inlined in
`.github/workflows/ai-code-review.yml` (the Batch Reviewer) and, modelled
from the specification, of the Request Relay endpoint whose Flask source is
not part of the repository snapshot.

Python strings are embedded as Lean `String`; Python `str.replace` with a
single-character pattern (the only form the script uses) replaces every
occurrence left to right, which is the character-wise `replaceChar` below.
Python `str.split(os.path.sep)` on Linux is `splitSep '/'`, keeping empty
segments exactly as Python does.  Python `dict` values for review responses
are restricted to the two keys the script reads (`fileName`,
`reviewResults`), each optional; Python dict truthiness (a dict with no
keys is falsy) is `Review.truthy`.
-/

/-- `EXCLUDE_DIRS` of the script: static exclusion set of path segments. -/
def EXCLUDE_DIRS : List String :=
  [".git", "node_modules", "dist", "build",
   "venv", ".venv", "env", ".env",
   "coverage", "logs", "__pycache__"]

/-- `source_extensions` local to `is_source_file`: the allow-list. -/
def source_extensions : List String :=
  [".py", ".js", ".jsx", ".ts", ".tsx",
   ".java", ".cpp", ".c", ".rb", ".go",
   ".php", ".swift", ".kt", ".rs",
   ".html", ".css", ".scss", ".lua"]

/-- Python `path.endswith(ext)`: suffix test on the character sequence. -/
def endswith (path ext : String) : Bool :=
  ext.data.isSuffixOf path.data

/-- `is_source_file(path)`: extension is in the static allow-list
(`any(path.endswith(ext) for ext in source_extensions)`). -/
def is_source_file (path : String) : Bool :=
  source_extensions.any (fun ext => endswith path ext)

/-- Python `s.split(sep)` for a single-character separator: splits the
character list at every separator, keeping empty segments
(`''.split('/') == ['']`). -/
def splitSep (sep : Char) : List Char → List (List Char)
  | [] => [[]]
  | c :: cs =>
    match splitSep sep cs with
    | x :: xs => if c = sep then [] :: x :: xs else (c :: x) :: xs
    | [] => if c = sep then [[], []] else [[c]]

/-- `should_exclude(path)`: some segment of `path.split(os.path.sep)` is a
member of `EXCLUDE_DIRS`. -/
def should_exclude (path : String) : Bool :=
  EXCLUDE_DIRS.any (fun ex => (splitSep '/' path.data).contains ex.data)

/-- The three markdown characters the sanitizer escapes. -/
def specialChar (c : Char) : Bool :=
  c = '|' || c = '*' || c = '_'

/-- Python `text.replace(old, new)` for a single-character `old`: every
occurrence of `old` is replaced by `new`, left to right. -/
def replaceChar (old : Char) (new : List Char) : List Char → List Char
  | [] => []
  | c :: cs =>
    if c = old then new ++ replaceChar old new cs
    else c :: replaceChar old new cs

/-- `sanitize_markdown(text)`: returns the fixed placeholder when `text` is
`None` or empty (Python `if not text`), else chains
`.replace('|','\\|').replace('*','\\*').replace('_','\\_')`. -/
def sanitize_markdown (text : Option String) : String :=
  match text with
  | none => "No review content available."
  | some s =>
    if s = "" then "No review content available."
    else String.mk (replaceChar '_' ['\\', '_']
          (replaceChar '*' ['\\', '*']
            (replaceChar '|' ['\\', '|'] s.data)))

/-- Character-wise escaping: a special character becomes backslash followed
by the character itself; every other character is unchanged.  Used to state
what the sanitizer's replace chain amounts to. -/
def esc (c : Char) : List Char :=
  if specialChar c then ['\\', c] else [c]

/-- Character-wise escaping of a whole string. -/
def escapeChars (s : List Char) : List Char :=
  s.flatMap esc

/-- The `reviewResults` mapping of a review response, restricted to the one
key the script reads. -/
structure ReviewResults where
  comprehensive_review : Option String
deriving DecidableEq

/-- A review response dict as the script consumes it: both keys optional
(`dict.get` with defaults is used everywhere). -/
structure Review where
  fileName : Option String
  reviewResults : Option ReviewResults
deriving DecidableEq

/-- Python truthiness of the response dict (`if review:`): a dict is truthy
exactly when it has at least one key. -/
def Review.truthy (r : Review) : Bool :=
  r.fileName.isSome || r.reviewResults.isSome

/-- Outcome of one attempt to read a file and POST it to the review URL:
either an HTTP response arrived (with status, raw text, and the result of
parsing the body as JSON — parsing may fail, raising inside the `try`), or
some exception (file read, timeout, connection) was raised. -/
inductive HttpResult where
  | response (status : Nat) (text : String) (json : Except String Review)
  | exn (msg : String)

/-- The review attempt did not produce a parsed 200 body: non-200 status,
unparseable body, or a raised exception. -/
def attemptFails : HttpResult → Bool
  | .response status _ (.ok _) => !(status == 200)
  | .response _ _ (.error _) => true
  | .exn _ => true

/-- `review_code(file_path, review_url)`: returns the parsed body on HTTP
200, otherwise prints one diagnostic line and returns `None`.  `env` gives
the outcome of the file-read plus outbound call for each path.  Result:
(returned value, lines printed to standard output). -/
def review_code (env : String → HttpResult) (path : String) :
    Option Review × List String :=
  match env path with
  | .response status text json =>
    if status = 200 then
      match json with
      | .ok j => (some j, [])
      | .error e => (none, ["Exception reviewing " ++ path ++ ": " ++ e])
    else (none, ["Error reviewing " ++ path ++ ": " ++ text])
  | .exn e => (none, ["Exception reviewing " ++ path ++ ": " ++ e])

/-- State produced by the walk in `main`: accumulated truthy reviews, lines
printed, and the paths actually dispatched to `review_code`. -/
structure WalkState where
  reviews : List Review
  logLines : List String
  dispatched : List String
deriving DecidableEq

/-- The walk in `main` over the paths `os.walk` yields: skip a path when
`should_exclude(full_path) or not is_source_file(full_path)`; otherwise
print `Reviewing: {path}`, call `review_code`, and append the result when
it is truthy (`if review:`). -/
def runWalk (env : String → HttpResult) : List String → WalkState
  | [] => ⟨[], [], []⟩
  | p :: rest =>
    if should_exclude p || !(is_source_file p) then runWalk env rest
    else
      let rc := review_code env p
      let s := runWalk env rest
      { reviews :=
          match rc.1 with
          | some j => if j.truthy then j :: s.reviews else s.reviews
          | none => s.reviews,
        logLines := ("Reviewing: " ++ p) :: (rc.2 ++ s.logLines),
        dispatched := p :: s.dispatched }

/-- The defaulted review text of one response:
`file_review.get('reviewResults', {}).get('comprehensive_review', 'No detailed review available.')`. -/
def reviewText (r : Review) : String :=
  ((r.reviewResults.getD ⟨none⟩).comprehensive_review).getD
    "No detailed review available."

/-- One `### File:` subsection of the report, as the loop body of
`generate_markdown_report` appends it. -/
def renderSection (r : Review) : String :=
  "### File: `" ++ r.fileName.getD "Unknown File" ++ "`\n\n"
  ++ "#### Comprehensive Review\n\n"
  ++ "```markdown\n" ++ sanitize_markdown (some (reviewText r)) ++ "\n```\n\n"

/-- The `for file_review in successful_reviews:` loop: one subsection per
review, concatenated in order. -/
def renderSections : List Review → String
  | [] => ""
  | r :: rs => renderSection r ++ renderSections rs

/-- `generate_markdown_report(reviews)`: header, overview with the count of
truthy entries (`[r for r in reviews if r]`), then the per-file sections.
(The script also reads `REVIEW_CATEGORIES` into a local it never uses.) -/
def generate_markdown_report (reviews : List Review) : String :=
  "# 🤖 Comprehensive AI Code Review Report\n\n"
  ++ "## Overview\n\n"
  ++ "**Total Files Reviewed:** "
  ++ toString (reviews.filter Review.truthy).length ++ "\n\n"
  ++ "## Detailed Reviews\n\n"
  ++ renderSections (reviews.filter Review.truthy)

/-- `main()` after the walk: write the report only when `reviews` is
non-empty (`if reviews:`), else print the no-files line.  Result: (content
written to `code-reviews/comprehensive_review.md`, if any; all lines
printed). -/
def mainRun (env : String → HttpResult) (paths : List String) :
    Option String × List String :=
  let s := runWalk env paths
  if s.reviews.isEmpty then
    (none, s.logLines ++ ["No source code files found or reviewed."])
  else
    (some (generate_markdown_report s.reviews),
     s.logLines ++
       ["Code review report generated: code-reviews/comprehensive_review.md"])

/-- Modelled from the spec: the Request Relay's Flask source
(`backend/main.py`) is not in the repository snapshot — the workflow only
starts it.  Outcome of the relay's single outbound generation call: on HTTP
200 the upstream body's `response` text field, otherwise the non-200 status
and body, or a transport exception. -/
inductive UpstreamResult where
  | ok200 (response : String)
  | non200 (status : Nat) (body : String)
  | exn (msg : String)
deriving DecidableEq

/-- Modelled from the spec: the relay's input pair, each field possibly
absent. -/
structure RelayRequest where
  code : Option String
  fileName : Option String
deriving DecidableEq

/-- Modelled from the spec: the relay's result taxonomy — success payload
`{ fileName, reviewResults: { comprehensive_review } }`, InvalidInput, or
UpstreamError. -/
inductive RelayResult where
  | success (resp : Review)
  | invalidInput (msg : String)
  | upstreamError (msg : String)
deriving DecidableEq

/-- Modelled from the spec: the fixed prompt template, filled by string
substitution with the configured review categories, the file name and the
code. -/
def buildPrompt (categories code fileName : String) : String :=
  "Review the file " ++ fileName ++ " under the categories "
    ++ categories ++ ":\n" ++ code

/-- Modelled from the spec: the Request Relay.  Fails with InvalidInput
when `code` or `fileName` is absent (making no outbound call); otherwise
issues exactly one outbound call with the substituted prompt and wraps the
outcome.  Result: (relay result, number of outbound calls made). -/
def relay (upstream : String → UpstreamResult) (categories : String)
    (req : RelayRequest) : RelayResult × Nat :=
  match req.code, req.fileName with
  | some code, some fn =>
    (match upstream (buildPrompt categories code fn) with
     | .ok200 text => (.success ⟨some fn, some ⟨some text⟩⟩, 1)
     | .non200 status body =>
       (.upstreamError ("HTTP " ++ toString status ++ ": " ++ body), 1)
     | .exn m => (.upstreamError m, 1))
  | _, _ => (.invalidInput "Missing code or fileName", 0)

lemma replaceChar_append (o : Char) (n a b : List Char) :
    replaceChar o n (a ++ b) = replaceChar o n a ++ replaceChar o n b := by
  induction a with
  | nil => simp [replaceChar]
  | cons c cs ih =>
    by_cases h : c = o <;> simp [replaceChar, h, ih, List.append_assoc]

lemma escapeChars_nil : escapeChars [] = [] := rfl

lemma escapeChars_cons (c : Char) (l : List Char) :
    escapeChars (c :: l) = esc c ++ escapeChars l := by
  simp [escapeChars]

lemma escapeChars_append (a b : List Char) :
    escapeChars (a ++ b) = escapeChars a ++ escapeChars b := by
  simp [escapeChars]

/-- The three sequential `replace` calls of the sanitizer amount to the
character-wise escaping: the characters a replacement inserts (a backslash
and the replaced character itself) are never hit by a later replacement. -/
lemma replace_chain_eq_escape (l : List Char) :
    replaceChar '_' ['\\', '_'] (replaceChar '*' ['\\', '*']
      (replaceChar '|' ['\\', '|'] l)) = escapeChars l := by
  induction l with
  | nil => simp [replaceChar, escapeChars]
  | cons c cs ih =>
    by_cases h1 : c = '|'
    · subst h1
      have e1 : replaceChar '|' ['\\', '|'] ('|' :: cs)
          = ['\\', '|'] ++ replaceChar '|' ['\\', '|'] cs := by
        simp [replaceChar]
      have e2 : replaceChar '*' ['\\', '*'] ['\\', '|'] = ['\\', '|'] := by decide
      have e3 : replaceChar '_' ['\\', '_'] ['\\', '|'] = ['\\', '|'] := by decide
      rw [e1, replaceChar_append, e2, replaceChar_append, e3, ih,
        escapeChars_cons]
      exact congrArg (· ++ escapeChars cs) (by decide)
    · by_cases h2 : c = '*'
      · subst h2
        have e1 : replaceChar '|' ['\\', '|'] ('*' :: cs)
            = '*' :: replaceChar '|' ['\\', '|'] cs := by
          simp [replaceChar]
        have e2 : ∀ rest, replaceChar '*' ['\\', '*'] ('*' :: rest)
            = ['\\', '*'] ++ replaceChar '*' ['\\', '*'] rest := by
          intro rest; simp [replaceChar]
        have e3 : replaceChar '_' ['\\', '_'] ['\\', '*'] = ['\\', '*'] := by decide
        rw [e1, e2, replaceChar_append, e3, ih, escapeChars_cons]
        exact congrArg (· ++ escapeChars cs) (by decide)
      · by_cases h3 : c = '_'
        · subst h3
          have e1 : replaceChar '|' ['\\', '|'] ('_' :: cs)
              = '_' :: replaceChar '|' ['\\', '|'] cs := by
            simp [replaceChar]
          have e2 : ∀ rest, replaceChar '*' ['\\', '*'] ('_' :: rest)
              = '_' :: replaceChar '*' ['\\', '*'] rest := by
            intro rest; simp [replaceChar]
          have e3 : ∀ rest, replaceChar '_' ['\\', '_'] ('_' :: rest)
              = ['\\', '_'] ++ replaceChar '_' ['\\', '_'] rest := by
            intro rest; simp [replaceChar]
          rw [e1, e2, e3, ih, escapeChars_cons]
          exact congrArg (· ++ escapeChars cs) (by decide)
        · have hs : specialChar c = false := by
            simp [specialChar, h1, h2, h3]
          rw [show replaceChar '|' ['\\', '|'] (c :: cs)
              = c :: replaceChar '|' ['\\', '|'] cs by simp [replaceChar, h1]]
          rw [show ∀ rest, replaceChar '*' ['\\', '*'] (c :: rest)
              = c :: replaceChar '*' ['\\', '*'] rest from
            fun rest => by simp [replaceChar, h2]]
          rw [show ∀ rest, replaceChar '_' ['\\', '_'] (c :: rest)
              = c :: replaceChar '_' ['\\', '_'] rest from
            fun rest => by simp [replaceChar, h3]]
          rw [ih, escapeChars_cons]
          simp [esc, hs]

/-- On a non-empty string the sanitizer is exactly the character-wise
escaping. -/
lemma sanitize_eq_escape (s : String) (h : s ≠ "") :
    sanitize_markdown (some s) = String.mk (escapeChars s.data) := by
  simp [sanitize_markdown, h, replace_chain_eq_escape]

lemma data_ne_nil (s : String) (h : s ≠ "") : s.data ≠ [] := by
  intro hd
  apply h
  cases s with
  | mk l =>
    simp only [String.data] at hd
    subst hd
    rfl

lemma esc_ne_nil (c : Char) : esc c ≠ [] := by
  by_cases h : specialChar c = true <;> simp [esc, h]

lemma escapeChars_ne_nil (l : List Char) (h : l ≠ []) : escapeChars l ≠ [] := by
  cases l with
  | nil => exact absurd rfl h
  | cons c cs =>
    rw [escapeChars_cons]
    intro hc
    exact esc_ne_nil c (List.append_eq_nil.mp hc).1

lemma length_escapeChars (l : List Char) :
    (escapeChars l).length = l.length + l.countP specialChar := by
  induction l with
  | nil => rfl
  | cons c cs ih =>
    rw [escapeChars_cons]
    by_cases h : specialChar c = true <;>
      simp [esc, h, ih, List.countP_cons] <;> omega

lemma countP_escapeChars (l : List Char) :
    (escapeChars l).countP specialChar = l.countP specialChar := by
  induction l with
  | nil => rfl
  | cons c cs ih =>
    rw [escapeChars_cons, List.countP_append, ih]
    have hb : specialChar '\\' = false := by decide
    by_cases h : specialChar c = true <;>
      simp [esc, h, hb, List.countP_cons, Nat.add_comm]

lemma escapeChars_eq_self (l : List Char)
    (h : ∀ c ∈ l, specialChar c = false) : escapeChars l = l := by
  induction l with
  | nil => rfl
  | cons c cs ih =>
    rw [escapeChars_cons, ih fun d hd => h d (List.mem_cons_of_mem c hd)]
    simp [esc, h c (List.mem_cons_self c cs)]

lemma str_append_assoc (a b c : String) : a ++ b ++ c = a ++ (b ++ c) := by
  cases a with
  | mk la =>
    cases b with
    | mk lb =>
      cases c with
      | mk lc =>
        show String.mk (la ++ lb ++ lc) = String.mk (la ++ (lb ++ lc))
        rw [List.append_assoc]

lemma renderSections_append (xs ys : List Review) :
    renderSections (xs ++ ys) = renderSections xs ++ renderSections ys := by
  induction xs with
  | nil =>
    show renderSections ys = "" ++ renderSections ys
    cases h : renderSections ys with
    | mk l => rfl
  | cons r rs ih =>
    show renderSection r ++ renderSections (rs ++ ys) = _
    rw [ih, renderSections, str_append_assoc]

lemma runWalk_dispatched (env : String → HttpResult) (paths : List String) :
    (runWalk env paths).dispatched
      = paths.filter (fun p => !(should_exclude p) && is_source_file p) := by
  induction paths with
  | nil => rfl
  | cons p rest ih =>
    cases hse : should_exclude p <;> cases hsf : is_source_file p <;>
      simp [runWalk, List.filter_cons, hse, hsf, ih]

lemma dispatched_nil_reviews (env : String → HttpResult) (paths : List String)
    (h : (runWalk env paths).dispatched = []) :
    (runWalk env paths).reviews = [] := by
  induction paths with
  | nil => rfl
  | cons p rest ih =>
    by_cases hc : (should_exclude p || !(is_source_file p)) = true
    · simp only [runWalk, hc, if_true] at h ⊢
      exact ih h
    · simp only [runWalk, hc, if_false, Bool.not_eq_true] at h
      exact absurd h (List.cons_ne_nil p _)

lemma review_code_fail (env : String → HttpResult) (p : String)
    (hf : attemptFails (env p) = true) :
    (review_code env p).1 = none ∧ (review_code env p).2.length = 1 := by
  unfold review_code
  cases henv : env p with
  | exn m => simp
  | response status text json =>
    rw [henv] at hf
    cases json with
    | error e => by_cases h200 : status = 200 <;> simp [h200]
    | ok j =>
      have hne : status ≠ 200 := by
        simp only [attemptFails, Bool.not_eq_true', beq_eq_false_iff_ne,
          ne_eq] at hf
        exact hf
      simp [hne]

/-- C1: a path visited by the batch walk is dispatched (read and sent for
review) exactly when no segment is in `EXCLUDE_DIRS` and its extension is
in the source allow-list; in the tree `a.py`, `node_modules/b.js`,
`README.md` exactly `a.py` is reviewed. -/
theorem batch_walk_filter :
    (∀ (env : String → HttpResult) (paths : List String),
      (runWalk env paths).dispatched
        = paths.filter (fun p => !(should_exclude p) && is_source_file p))
    ∧ ∀ env : String → HttpResult,
        (runWalk env
          ["./a.py", "./node_modules/b.js", "./README.md"]).dispatched
          = ["./a.py"] := by
  refine ⟨runWalk_dispatched, fun env => ?_⟩
  rw [runWalk_dispatched]
  decide

/-- C2: when a dispatched file's review attempt fails (non-200 status,
unparseable body, or an exception), `review_code` returns `None`, prints
exactly one diagnostic line, and the walk yields the same accumulated
reviews as if the file were absent — it continues rather than aborting. -/
theorem failed_review_logged_and_dropped (env : String → HttpResult)
    (p : String) (hf : attemptFails (env p) = true) :
    (review_code env p).1 = none
    ∧ (review_code env p).2.length = 1
    ∧ ∀ xs ys, (runWalk env (xs ++ p :: ys)).reviews
        = (runWalk env (xs ++ ys)).reviews := by
  obtain ⟨h1, h2⟩ := review_code_fail env p hf
  refine ⟨h1, h2, ?_⟩
  intro xs ys
  induction xs with
  | nil =>
    simp only [List.nil_append]
    by_cases hc : (should_exclude p || !(is_source_file p)) = true
    · simp [runWalk, hc]
    · simp [runWalk, hc, h1]
  | cons x xs ih =>
    simp only [List.cons_append]
    by_cases hcx : (should_exclude x || !(is_source_file x)) = true
    · simp only [runWalk, hcx, if_true]
      exact ih
    · simp only [runWalk, hcx, if_false]
      cases hrx : (review_code env x).1 with
      | none => simpa [hrx] using ih
      | some j => by_cases ht : j.truthy <;> simp [hrx, ht, ih]

/-- Witness for C2 at a concrete failing environment and path. -/
theorem failed_review_logged_and_dropped_witness :
    attemptFails ((fun _ => HttpResult.exn "connection refused") "./a.py")
      = true
    ∧ ((review_code (fun _ => HttpResult.exn "connection refused")
          "./a.py").1 = none
       ∧ (review_code (fun _ => HttpResult.exn "connection refused")
            "./a.py").2.length = 1
       ∧ ∀ xs ys,
           (runWalk (fun _ => HttpResult.exn "connection refused")
             (xs ++ "./a.py" :: ys)).reviews
           = (runWalk (fun _ => HttpResult.exn "connection refused")
               (xs ++ ys)).reviews) :=
  ⟨rfl, failed_review_logged_and_dropped _ "./a.py" rfl⟩

/-- C5: the batch run writes no report exactly when the accumulated review
list is empty; in particular when no file passes the filters nothing is
written. -/
theorem no_report_without_success (env : String → HttpResult)
    (paths : List String) :
    ((mainRun env paths).1 = none ↔ (runWalk env paths).reviews = [])
    ∧ ((runWalk env paths).dispatched = []
        → (mainRun env paths).1 = none) := by
  have hiff : (mainRun env paths).1 = none
      ↔ (runWalk env paths).reviews = [] := by
    simp only [mainRun]
    by_cases h : (runWalk env paths).reviews.isEmpty = true
    · simp [h, List.isEmpty_iff.mp h]
    · have hne : (runWalk env paths).reviews ≠ [] := by
        simpa [List.isEmpty_iff] using h
      simp [h, hne]
  exact ⟨hiff, fun hd => hiff.mpr (dispatched_nil_reviews env paths hd)⟩

/-- Witness for C5: a tree whose only file is filtered out produces no
report. -/
theorem no_report_without_success_witness :
    (runWalk (fun _ => HttpResult.exn "down") ["./README.md"]).dispatched
      = []
    ∧ (mainRun (fun _ => HttpResult.exn "down") ["./README.md"]).1
      = none :=
  ⟨by decide, (no_report_without_success _ _).2 (by decide)⟩

/-- C6: for a list of successful (truthy) review results the report is the
header, the count equal to the number of results, then exactly one
subsection per result in accumulation order. -/
theorem report_structure (reviews : List Review)
    (h : ∀ r ∈ reviews, Review.truthy r = true) :
    generate_markdown_report reviews
      = "# 🤖 Comprehensive AI Code Review Report\n\n"
        ++ "## Overview\n\n"
        ++ "**Total Files Reviewed:** " ++ toString reviews.length ++ "\n\n"
        ++ "## Detailed Reviews\n\n"
        ++ renderSections reviews := by
  unfold generate_markdown_report
  rw [List.filter_eq_self.mpr h]

/-- Witness for C6 at a one-element review list. -/
theorem report_structure_witness :
    (∀ r ∈ ([⟨some "a.py", some ⟨some "ok"⟩⟩] : List Review),
      Review.truthy r = true)
    ∧ generate_markdown_report ([⟨some "a.py", some ⟨some "ok"⟩⟩] : List Review)
      = "# 🤖 Comprehensive AI Code Review Report\n\n"
        ++ "## Overview\n\n"
        ++ "**Total Files Reviewed:** "
        ++ toString ([⟨some "a.py", some ⟨some "ok"⟩⟩] : List Review).length
        ++ "\n\n"
        ++ "## Detailed Reviews\n\n"
        ++ renderSections ([⟨some "a.py", some ⟨some "ok"⟩⟩] : List Review) :=
  ⟨by decide, report_structure _ (by decide)⟩

/-- C7 (spec-modelled relay): when the upstream call returns HTTP 200 with
response text `X`, the relay returns exactly the success payload
`{ fileName, reviewResults: { comprehensive_review: X } }`, having made one
outbound call. -/
theorem relay_wraps_200 (up : String → UpstreamResult)
    (cats code fn X : String)
    (h : up (buildPrompt cats code fn) = .ok200 X) :
    relay up cats ⟨some code, some fn⟩
      = (.success ⟨some fn, some ⟨some X⟩⟩, 1) := by
  simp [relay, h]

/-- Witness for C7 at a concrete upstream. -/
theorem relay_wraps_200_witness :
    ((fun _ => UpstreamResult.ok200 "X") (buildPrompt "" "c" "f")
      = UpstreamResult.ok200 "X")
    ∧ relay (fun _ => UpstreamResult.ok200 "X") "" ⟨some "c", some "f"⟩
      = (.success ⟨some "f", some ⟨some "X"⟩⟩, 1) :=
  ⟨rfl, relay_wraps_200 _ "" "c" "f" "X" rfl⟩

/-- C8 (spec-modelled relay): when `code` or `fileName` is absent the relay
fails with InvalidInput and makes zero outbound calls. -/
theorem relay_invalid_no_call (up : String → UpstreamResult)
    (cats : String) (req : RelayRequest)
    (h : req.code = none ∨ req.fileName = none) :
    relay up cats req = (.invalidInput "Missing code or fileName", 0) := by
  obtain ⟨c, f⟩ := req
  rcases h with h | h
  · obtain rfl : c = none := h
    cases f <;> rfl
  · obtain rfl : f = none := h
    cases c <;> rfl

/-- Witness for C8 at a request missing `code`. -/
theorem relay_invalid_no_call_witness :
    ((⟨none, some "f"⟩ : RelayRequest).code = none
      ∨ (⟨none, some "f"⟩ : RelayRequest).fileName = none)
    ∧ relay (fun _ => UpstreamResult.exn "x") "" ⟨none, some "f"⟩
      = (.invalidInput "Missing code or fileName", 0) :=
  ⟨Or.inl rfl, relay_invalid_no_call _ "" _ (Or.inl rfl)⟩

/-- C9: report generation is total on arbitrary response dicts, with the
two defaults independent of one another — for every entry, a missing
`fileName` renders the subsection as `Unknown File` whatever the review
text is, and a missing `reviewResults` mapping or missing
`comprehensive_review` key renders the default text whatever the filename
is. -/
theorem section_defaults (r : Review) :
    (r.fileName = none →
      renderSection r
        = "### File: `Unknown File`\n\n#### Comprehensive Review\n\n```markdown\n"
          ++ sanitize_markdown (some (reviewText r)) ++ "\n```\n\n")
    ∧ ((r.reviewResults = none ∨ r.reviewResults = some ⟨none⟩) →
      reviewText r = "No detailed review available."
      ∧ renderSection r
        = "### File: `" ++ r.fileName.getD "Unknown File"
          ++ "`\n\n#### Comprehensive Review\n\n```markdown\nNo detailed review available.\n```\n\n") := by
  obtain ⟨a, b⟩ := r
  constructor
  · intro hf
    obtain rfl : a = none := hf
    have hpre : ("### File: `Unknown File`\n\n#### Comprehensive Review\n\n```markdown\n" : String)
        = "### File: `" ++ "Unknown File" ++ "`\n\n"
          ++ "#### Comprehensive Review\n\n" ++ "```markdown\n" := by
      decide
    rw [hpre]
    simp only [renderSection, Option.getD_none, str_append_assoc]
  · intro hr
    have hrt : reviewText ⟨a, b⟩ = "No detailed review available." := by
      rcases hr with hr | hr
      · obtain rfl : b = none := hr
        rfl
      · obtain rfl : b = some ⟨none⟩ := hr
        rfl
    refine ⟨hrt, ?_⟩
    have hpre2 : ("`\n\n#### Comprehensive Review\n\n```markdown\nNo detailed review available.\n```\n\n" : String)
        = "`\n\n" ++ "#### Comprehensive Review\n\n"
          ++ "```markdown\n" ++ "No detailed review available."
          ++ "\n```\n\n" := by
      decide
    have hsan : sanitize_markdown (some "No detailed review available.")
        = "No detailed review available." := by decide
    rw [hpre2]
    simp only [renderSection, hrt, hsan, str_append_assoc]

/-- Witness for C9 at two mixed dicts: a missing filename next to a present
review text, and a present filename next to a missing review mapping. -/
theorem section_defaults_witness :
    (Review.fileName ⟨none, some ⟨some "hi"⟩⟩ = none
     ∧ renderSection ⟨none, some ⟨some "hi"⟩⟩
        = "### File: `Unknown File`\n\n#### Comprehensive Review\n\n```markdown\n"
          ++ sanitize_markdown (some (reviewText ⟨none, some ⟨some "hi"⟩⟩))
          ++ "\n```\n\n")
    ∧ (Review.reviewResults ⟨some "a.py", none⟩ = none
       ∧ reviewText ⟨some "a.py", none⟩ = "No detailed review available."
       ∧ renderSection ⟨some "a.py", none⟩
          = "### File: `"
            ++ (Review.fileName ⟨some "a.py", none⟩).getD "Unknown File"
            ++ "`\n\n#### Comprehensive Review\n\n```markdown\nNo detailed review available.\n```\n\n") :=
  ⟨⟨rfl, (section_defaults ⟨none, some ⟨some "hi"⟩⟩).1 rfl⟩,
   ⟨rfl, ((section_defaults ⟨some "a.py", none⟩).2 (Or.inl rfl)).1,
     ((section_defaults ⟨some "a.py", none⟩).2 (Or.inl rfl)).2⟩⟩

/-- C10: the sanitizer maps an absent or empty review text to the fixed
placeholder, and never returns the empty string, so no fenced block in the
report is empty. -/
theorem sanitize_empty_placeholder :
    sanitize_markdown none = "No review content available."
    ∧ sanitize_markdown (some "") = "No review content available."
    ∧ ∀ t : Option String, sanitize_markdown t ≠ "" := by
  refine ⟨rfl, rfl, ?_⟩
  intro t
  cases t with
  | none => decide
  | some s =>
    by_cases hs : s = ""
    · subst hs; decide
    · rw [sanitize_eq_escape s hs]
      intro hcontra
      have hdat : escapeChars s.data = [] := by
        have h2 := congrArg String.data hcontra
        simpa using h2
      exact escapeChars_ne_nil s.data (data_ne_nil s hs) hdat

/-- Counterexample to C3 as stated: sanitizing an already-sanitized string
containing `|` escapes it again — the replace chain double-escapes. -/
theorem sanitize_not_idempotent_cex :
    sanitize_markdown (some (sanitize_markdown (some "|")))
      ≠ sanitize_markdown (some "|") := by
  decide

/-- C3 (amended): the sanitizer is idempotent exactly on strings containing
none of `|`, `*`, `_`; on any string containing one of them a second
application escapes the inserted sequences again. -/
theorem sanitize_idempotent_iff (s : String) :
    sanitize_markdown (some (sanitize_markdown (some s)))
      = sanitize_markdown (some s)
    ↔ ∀ c ∈ s.data, specialChar c = false := by
  by_cases hs : s = ""
  · subst hs
    constructor
    · intro _ c hc
      have hd : ("" : String).data = [] := rfl
      rw [hd] at hc
      exact absurd hc (List.not_mem_nil c)
    · intro _
      decide
  · rw [sanitize_eq_escape s hs]
    have hd := data_ne_nil s hs
    have hen : escapeChars s.data ≠ [] := escapeChars_ne_nil s.data hd
    have hne2 : String.mk (escapeChars s.data) ≠ "" := by
      intro h
      apply hen
      have h2 := congrArg String.data h
      simpa using h2
    rw [sanitize_eq_escape _ hne2]
    have hdata : (String.mk (escapeChars s.data)).data = escapeChars s.data :=
      rfl
    rw [hdata]
    constructor
    · intro heq
      have hlist : escapeChars (escapeChars s.data) = escapeChars s.data := by
        have h2 := congrArg String.data heq
        simpa using h2
      have hlen := congrArg List.length hlist
      rw [length_escapeChars, length_escapeChars, countP_escapeChars]
        at hlen
      have hcnt : s.data.countP specialChar = 0 := by omega
      intro c hc
      have hnc := List.countP_eq_zero.mp hcnt c hc
      simpa using hnc
    · intro h
      rw [escapeChars_eq_self s.data h, escapeChars_eq_self s.data h]

/-- C4: a successful (truthy) review whose text is non-empty appears in the
generated report inside a fenced code block with every `|`, `*`, `_`
escaped character-wise (each preceded by a backslash). -/
theorem report_escapes_special_chars (reviews : List Review) (r : Review)
    (t : String) (hmem : r ∈ reviews)
    (hr : r.reviewResults = some ⟨some t⟩) (ht : t ≠ "") :
    ∃ a b, generate_markdown_report reviews
      = a ++ ("```markdown\n" ++ String.mk (escapeChars t.data) ++ "\n```")
        ++ b := by
  have htr : Review.truthy r = true := by
    simp [Review.truthy, hr]
  have hmf : r ∈ reviews.filter Review.truthy :=
    List.mem_filter.mpr ⟨hmem, htr⟩
  obtain ⟨l1, l2, hsplit⟩ := List.append_of_mem hmf
  have hrt : reviewText r = t := by
    simp [reviewText, hr]
  have hsan : sanitize_markdown (some (reviewText r))
      = String.mk (escapeChars t.data) := by
    rw [hrt]
    exact sanitize_eq_escape t ht
  refine ⟨"# 🤖 Comprehensive AI Code Review Report\n\n"
      ++ "## Overview\n\n"
      ++ "**Total Files Reviewed:** "
      ++ toString (reviews.filter Review.truthy).length ++ "\n\n"
      ++ "## Detailed Reviews\n\n"
      ++ renderSections l1
      ++ ("### File: `" ++ r.fileName.getD "Unknown File" ++ "`\n\n"
          ++ "#### Comprehensive Review\n\n"),
    "\n\n" ++ renderSections l2, ?_⟩
  unfold generate_markdown_report
  rw [hsplit, renderSections_append]
  simp only [renderSections]
  rw [renderSection, hsan]
  have hlit : ("\n```\n\n" : String) = "\n```" ++ "\n\n" := rfl
  rw [hlit]
  simp only [str_append_assoc]

/-- A concrete review whose text holds all three special characters. -/
def sampleEscapedReview : Review := ⟨some "f.py", some ⟨some "a|b*c_d"⟩⟩

/-- Witness for C4 at a one-element review list whose text holds all three
special characters. -/
theorem report_escapes_special_chars_witness :
    (sampleEscapedReview ∈ [sampleEscapedReview])
    ∧ (sampleEscapedReview.reviewResults = some ⟨some "a|b*c_d"⟩)
    ∧ ("a|b*c_d" ≠ "")
    ∧ ∃ a b,
        generate_markdown_report [sampleEscapedReview]
        = a ++ ("```markdown\n" ++ String.mk (escapeChars "a|b*c_d".data)
            ++ "\n```") ++ b :=
  ⟨by decide, rfl, by decide,
    report_escapes_special_chars [sampleEscapedReview] sampleEscapedReview
      "a|b*c_d" (by decide) rfl (by decide)⟩
